import Mathlib

/-!
Verification of the adaptive speckle-filtering engine of WSC-SSWM
(`SSWM/preprocess/filters.py`).

The numeric code is embedded shallowly:

* numpy 2-D arrays become functions `Fin m → Fin n → α` (`Mat m n α`);
* floating-point arithmetic is idealised as exact arithmetic in a linear
  ordered field, except that the IEEE special values are modelled
  explicitly by the type `Fl α` (`fin x`, `nan`, `inf`, `ninf`) with the
  IEEE-754 propagation rules used by numpy (`0 * nan = nan`,
  `0/0 = nan`, comparisons with `nan` are `false`, ...);
* `scipy.ndimage.uniform_filter` (mode `reflect`, the scipy default) is
  embedded as two sequential 1-D box-mean passes with edge-repeating
  reflected indexing, matching the separable scipy implementation;
* `scipy.ndimage.measurements.label` + `variance(d, lbl)` with
  `index=None` reduce to the population variance over the pixels with a
  positive label, i.e. over the non-zero pixels (`label` marks exactly
  the non-zero entries as features), which is how they are embedded;
  an empty selection gives `0/0 = nan` exactly as scipy does.

Definitions carry the names of the Python functions they embed.
-/

/-- A 2-D array with `m` rows and `n` columns, as read from one raster band. -/
abbrev Mat (m n : ℕ) (α : Type) := Fin m → Fin n → α

/-- IEEE-style value lattice used by the numpy code: a finite value of the
(idealised, exact) field `α`, or one of the special values `nan`, `inf`,
`ninf` (= `-inf`). -/
inductive Fl (α : Type) where
  | fin (x : α)
  | nan
  | inf
  | ninf
deriving DecidableEq, Repr

namespace Fl

variable {α : Type} [LinearOrderedField α]

/-- IEEE addition (numpy `+` / `np.add`). -/
def add : Fl α → Fl α → Fl α
  | nan, _ => nan
  | fin _, nan => nan
  | inf, nan => nan
  | ninf, nan => nan
  | fin x, fin y => fin (x + y)
  | fin _, inf => inf
  | inf, fin _ => inf
  | fin _, ninf => ninf
  | ninf, fin _ => ninf
  | inf, inf => inf
  | ninf, ninf => ninf
  | inf, ninf => nan
  | ninf, inf => nan

/-- IEEE subtraction (numpy `-` / `np.subtract`). -/
def sub : Fl α → Fl α → Fl α
  | nan, _ => nan
  | fin _, nan => nan
  | inf, nan => nan
  | ninf, nan => nan
  | fin x, fin y => fin (x - y)
  | fin _, inf => ninf
  | inf, fin _ => inf
  | fin _, ninf => inf
  | ninf, fin _ => ninf
  | inf, inf => nan
  | ninf, ninf => nan
  | inf, ninf => inf
  | ninf, inf => ninf

/-- IEEE multiplication (numpy `*` / `np.multiply`); note `0 * inf = nan`
and `0 * nan = nan`. -/
def mul : Fl α → Fl α → Fl α
  | nan, _ => nan
  | fin _, nan => nan
  | inf, nan => nan
  | ninf, nan => nan
  | fin x, fin y => fin (x * y)
  | fin x, inf => if x = 0 then nan else if 0 < x then inf else ninf
  | inf, fin x => if x = 0 then nan else if 0 < x then inf else ninf
  | fin x, ninf => if x = 0 then nan else if 0 < x then ninf else inf
  | ninf, fin x => if x = 0 then nan else if 0 < x then ninf else inf
  | inf, inf => inf
  | ninf, ninf => inf
  | inf, ninf => ninf
  | ninf, inf => ninf

/-- IEEE true division (numpy `/` / `np.divide`); `0/0 = nan`,
`x/0 = ±inf` for `x ≠ 0` (numpy has an unsigned positive zero here),
`inf/inf = nan`. -/
def div : Fl α → Fl α → Fl α
  | nan, _ => nan
  | fin _, nan => nan
  | inf, nan => nan
  | ninf, nan => nan
  | fin x, fin y =>
      if y = 0 then (if x = 0 then nan else if 0 < x then inf else ninf)
      else fin (x / y)
  | fin _, inf => fin 0
  | fin _, ninf => fin 0
  | inf, fin y => if 0 ≤ y then inf else ninf
  | ninf, fin y => if 0 ≤ y then ninf else inf
  | inf, inf => nan
  | inf, ninf => nan
  | ninf, inf => nan
  | ninf, ninf => nan

/-- IEEE comparison `<` (numpy `np.less`): every comparison with `nan`
is `false`. -/
def lt : Fl α → Fl α → Bool
  | nan, _ => false
  | fin _, nan => false
  | inf, nan => false
  | ninf, nan => false
  | fin x, fin y => decide (x < y)
  | ninf, ninf => false
  | ninf, fin _ => true
  | ninf, inf => true
  | fin _, ninf => false
  | inf, ninf => false
  | inf, inf => false
  | fin _, inf => true
  | inf, fin _ => false

/-- IEEE comparison `≤` (numpy `np.less_equal`): every comparison with
`nan` is `false`. -/
def le : Fl α → Fl α → Bool
  | nan, _ => false
  | fin _, nan => false
  | inf, nan => false
  | ninf, nan => false
  | fin x, fin y => decide (x ≤ y)
  | ninf, _ => true
  | fin _, ninf => false
  | inf, ninf => false
  | fin _, inf => true
  | inf, inf => true
  | inf, fin _ => false

/-- numpy `np.greater_equal`: `ge a b = le b a`, `false` on `nan`. -/
def ge (a b : Fl α) : Bool := le b a

/-- A numpy boolean mask element used as a `0/1` float factor. -/
def ofBool (b : Bool) : Fl α := if b then fin 1 else fin 0

/-- numpy `np.exp` on the value lattice over `ℝ` (idealised: the exact
real exponential on finite values; `exp(-inf) = 0`, `exp(inf) = inf`,
`exp(nan) = nan`). -/
noncomputable def exp : Fl ℝ → Fl ℝ
  | fin x => fin (Real.exp x)
  | nan => nan
  | inf => inf
  | ninf => fin 0

theorem add_comm2 (a b : Fl α) : add a b = add b a := by
  cases a <;> cases b <;> simp [add, add_comm]

end Fl

/-! ## The scipy `uniform_filter` (box mean, mode `reflect`) -/

/-- Reflected index into `[0, len)`, scipy/ndimage boundary mode
`reflect`: the extension pattern is `(d c b a | a b c d | d c b a)`,
i.e. `-1 ↦ 0`, `-2 ↦ 1`, `len ↦ len - 1`, ... -/
def reflN (len : ℕ) (z : ℤ) : ℕ :=
  let r := (z % (2 * len)).toNat
  if r < len then r else 2 * len - 1 - r

theorem reflN_lt {len : ℕ} (h : 0 < len) (z : ℤ) : reflN len z < len := by
  unfold reflN
  set r := (z % (2 * len)).toNat with hr
  by_cases hlt : r < len
  · simp [hlt]
  · simp only [hlt, if_false]
    omega

/-- Reflected index packaged as a `Fin`; the element `j` witnesses that
the axis is non-empty. -/
def reflIx {n : ℕ} (j : Fin n) (z : ℤ) : Fin n :=
  ⟨reflN n z, reflN_lt j.pos z⟩

variable {α : Type} [LinearOrderedField α] {m n : ℕ}

/-- Mean of `k` samples (one output sample of a 1-D size-`k` box filter). -/
def boxMean (k : ℕ) (g : ℕ → α) : α :=
  (∑ t ∈ Finset.range k, g t) / (k : α)

/-- One 1-D box-mean pass along axis 0 (down the rows), window size `k`,
centre offset `k / 2` as in `scipy.ndimage.uniform_filter1d` with
`origin = 0`. -/
def passRows (k : ℕ) (f : Mat m n α) : Mat m n α :=
  fun i j => boxMean k (fun t => f (reflIx i ((i : ℤ) + t - (k / 2 : ℕ))) j)

/-- One 1-D box-mean pass along axis 1 (across the columns). -/
def passCols (k : ℕ) (f : Mat m n α) : Mat m n α :=
  fun i j => boxMean k (fun t => f i (reflIx j ((j : ℤ) + t - (k / 2 : ℕ))))

/-- `scipy.ndimage.uniform_filter(f, window)`: separable application of
the two 1-D passes (axis 0 first, then axis 1), exactly as scipy
implements the n-D uniform filter. -/
def uniform_filter (w : ℕ × ℕ) (f : Mat m n α) : Mat m n α :=
  passCols w.2 (passRows w.1 f)

/-! ## Windowed statistics (`moving_window_sd`, `window_stdev`) -/

/-- `moving_window_sd(data, window, return_mean=True, return_variance=True)`,
the call made by `lee_filter`: `t1 := uniform_filter(data)`,
`t2 := uniform_filter(data²)`, `m := t1.copy()`, `t1 := t1²`,
`t2 := t2 - t1`, then the clamp `t2[t2 < 0] = 0`.  Returns
`(variance, mean)` in the order of the Python `return t2, m`. -/
def moving_window_sd (w : ℕ × ℕ) (data : Mat m n α) : Mat m n α × Mat m n α :=
  let t1 := uniform_filter w data
  let t2 := uniform_filter w (fun i j => data i j ^ 2)
  (fun i j => if t2 i j - t1 i j ^ 2 < 0 then 0 else t2 i j - t1 i j ^ 2, t1)

/-- `window_stdev(img, window, img_mean)` as called by
`enhanced_lee_filter` (the mean is passed in, the mean of squares is
recomputed): `sqrt(uniform_filter(img²) - img_mean²)`.  There is no
clamp here; in exact arithmetic the radicand is provably non-negative
(`uniform2_sq_le` below), so `Real.sqrt` is a faithful embedding of
`np.sqrt` on the reachable inputs. -/
noncomputable def window_stdev (w : ℕ × ℕ) (img img_mean : Mat m n ℝ) :
    Mat m n ℝ :=
  let img_sqr_mean := uniform_filter w (fun i j => img i j ^ 2)
  fun i j => Real.sqrt (img_sqr_mean i j - img_mean i j ^ 2)

/-! ## Overall (scalar) variances -/

/-- Population variance of the entries of `img` over a pixel set `s`
(scipy `ndimage` statistics are population statistics). -/
def setVariance (img : Mat m n α) (s : Finset (Fin m × Fin n)) : α :=
  let mu := (∑ p ∈ s, img p.1 p.2) / (s.card : α)
  (∑ p ∈ s, (img p.1 p.2 - mu) ^ 2) / (s.card : α)

/-- `variance(d, label(d))` with `index=None` as in `lee_filter`
(lines 65-66): `label` marks exactly the non-zero pixels as features,
and `variance` with labels but no index returns ONE scalar, the
population variance over all pixels with label `> 0`, i.e. over the
non-zero pixels.  With no non-zero pixel scipy computes `0/0` and
returns `nan`. -/
def nonzeroVariance (img : Mat m n α) : Fl α :=
  let s := Finset.univ.filter (fun p : Fin m × Fin n => img p.1 p.2 ≠ 0)
  if s.card = 0 then .nan else .fin (setVariance img s)

/-- `variance(img)` as in `lee_filter2` (line 44): population variance
over ALL pixels (scipy with `labels=None`); `nan` on an empty array. -/
def allVariance (img : Mat m n α) : Fl α :=
  if (Finset.univ : Finset (Fin m × Fin n)).card = 0 then .nan
  else .fin (setVariance img Finset.univ)

/-! ## The two Lee filters -/

/-- `lee_filter(img, window)` (the in-place variant, default window
`(5,5)`): value-level embedding of the buffer pipeline of lines 62-83.
`d = np.array(img, dtype='float32')` is a working copy, so the
arithmetic below reads the original values; `overall_variance` is the
scalar `variance(d, label(d))`; then
`overall = overall + var`, `d = d - mean`, `weights = var / overall`,
`d = weights * d`, `d = mean + d`. -/
def lee_filter (w : ℕ × ℕ) (img : Mat m n α) : Mat m n (Fl α) :=
  let vm := moving_window_sd w img
  let ov := nonzeroVariance img
  fun i j =>
    let ovv := Fl.add ov (.fin (vm.1 i j))
    let d1 := img i j - vm.2 i j
    let wt := Fl.div (.fin (vm.1 i j)) ovv
    Fl.add (.fin (vm.2 i j)) (Fl.mul wt (.fin d1))

/-- `lee_filter2(img, window)` (the non-mutating variant, default window
`(3,3)`), lines 15-49: `img_mean = uniform_filter(img)`,
`img_sqr_mean = uniform_filter(img²)`,
`img_variance = img_sqr_mean - img_mean²` (NO clamp),
`overall_variance = variance(img)` (all pixels),
`weights = img_variance / (img_variance + overall_variance)`,
`output = img_mean + weights * (img - img_mean)`. -/
def lee_filter2 (w : ℕ × ℕ) (img : Mat m n α) : Mat m n (Fl α) :=
  let img_mean := uniform_filter w img
  let img_sqr_mean := uniform_filter w (fun i j => img i j ^ 2)
  let img_variance := fun i j => img_sqr_mean i j - img_mean i j ^ 2
  let ov := allVariance img
  fun i j =>
    let wt := Fl.div (.fin (img_variance i j)) (Fl.add (.fin (img_variance i j)) ov)
    Fl.add (.fin (img_mean i j)) (Fl.mul wt (.fin (img i j - img_mean i j)))

/-! ## The enhanced Lee filter -/

/-- `enhanced_lee_filter(img, looks, window, df)`, lines 85-145.  The
input has already been converted to float (`np.array(img, dtype=np.float32)`),
so the model takes a real matrix.  `Cu = sqrt(1/looks)`,
`Cmax = sqrt(1 + 2/looks)`, `Ic` is a copy of the input,
`Im = uniform_filter(img, window)`, `S = window_stdev(img, window, Im)`,
`Ci = S / Im` (an IEEE division: `0/0 = nan`).  Then, as in the source:
`M2 = less(Cu, Ci) * less(Ci, Cmax)`,
`W = exp((-df*(Ci-Cu)/(Cmax-Ci)) * M2)`,
`R2 = (Im*W + Ic*(1-W)) * M2`,
`M1 = less_equal(Ci, Cu)`, `Im *= M1`,
`M3 = greater_equal(Ci, Cu)`  ← note: the source compares with `Cu`,
not `Cmax`, at line 140 — `Ic *= M3`, and `R = Im + R2 + Ic`. -/
noncomputable def enhanced_lee_filter (looks df : ℝ) (window : ℕ)
    (img : Mat m n ℝ) : Mat m n (Fl ℝ) :=
  let Cu := Real.sqrt (1 / looks)
  let Cmax := Real.sqrt (1 + 2 / looks)
  let Ic := img
  let Im := uniform_filter (window, window) img
  let S := window_stdev (window, window) img Im
  fun i j =>
    let ci := Fl.div (.fin (S i j)) (.fin (Im i j))
    let m2 := Fl.mul (Fl.ofBool (Fl.lt (.fin Cu) ci))
                     (Fl.ofBool (Fl.lt ci (.fin Cmax)))
    let w := Fl.exp (Fl.mul (Fl.div (Fl.mul (.fin (-df)) (Fl.sub ci (.fin Cu)))
                                     (Fl.sub (.fin Cmax) ci)) m2)
    let r2 := Fl.mul (Fl.add (Fl.mul (.fin (Im i j)) w)
                             (Fl.mul (.fin (Ic i j)) (Fl.sub (.fin 1) w))) m2
    let m1 := Fl.ofBool (Fl.le ci (.fin Cu))
    let im1 := Fl.mul (.fin (Im i j)) m1
    let m3 := Fl.ofBool (Fl.ge ci (.fin Cu))
    let ic3 := Fl.mul (.fin (Ic i j)) m3
    Fl.add (Fl.add im1 r2) ic3

/-! ## Exact-arithmetic nonnegativity of the windowed variance -/

theorem boxMean_sq_le (k : ℕ) (g : ℕ → α) :
    boxMean k g ^ 2 ≤ boxMean k (fun t => g t ^ 2) := by
  rcases Nat.eq_zero_or_pos k with hk | hk
  · simp [boxMean, hk]
  · have hk0 : (0 : α) < (k : α) := by exact_mod_cast hk
    have hcs : (∑ t ∈ Finset.range k, g t) ^ 2 ≤
        (k : α) * ∑ t ∈ Finset.range k, g t ^ 2 := by
      simpa [Finset.card_range] using
        (sq_sum_le_card_mul_sum_sq (s := Finset.range k) (f := g))
    unfold boxMean
    rw [div_pow, div_le_div_iff₀ (by positivity) hk0]
    calc (∑ t ∈ Finset.range k, g t) ^ 2 * (k : α)
        ≤ ((k : α) * ∑ t ∈ Finset.range k, g t ^ 2) * (k : α) := by
          exact mul_le_mul_of_nonneg_right hcs (le_of_lt hk0)
      _ = (∑ t ∈ Finset.range k, g t ^ 2) * (k : α) ^ 2 := by ring

theorem boxMean_mono (k : ℕ) {g h : ℕ → α} (hgh : ∀ t, g t ≤ h t) :
    boxMean k g ≤ boxMean k h := by
  rcases Nat.eq_zero_or_pos k with hk | hk
  · simp [boxMean, hk]
  · have hk0 : (0 : α) < (k : α) := by exact_mod_cast hk
    unfold boxMean
    exact div_le_div_of_nonneg_right
      (Finset.sum_le_sum fun t _ => hgh t) (le_of_lt hk0) |>.trans_eq rfl

theorem passRows_sq_le (k : ℕ) (f : Mat m n α) (i : Fin m) (j : Fin n) :
    passRows k f i j ^ 2 ≤ passRows k (fun a b => f a b ^ 2) i j :=
  boxMean_sq_le k _

theorem passCols_sq_le (k : ℕ) (f : Mat m n α) (i : Fin m) (j : Fin n) :
    passCols k f i j ^ 2 ≤ passCols k (fun a b => f a b ^ 2) i j :=
  boxMean_sq_le k _

/-- In exact arithmetic the windowed mean of squares dominates the square
of the windowed mean (Jensen, twice — once per separable pass).  This is
the reason the `np.sqrt` in `window_stdev` and the clamp in
`moving_window_sd` never see a negative value in the idealised model. -/
theorem uniform_sq_le (w : ℕ × ℕ) (f : Mat m n α) (i : Fin m) (j : Fin n) :
    uniform_filter w f i j ^ 2 ≤ uniform_filter w (fun a b => f a b ^ 2) i j := by
  unfold uniform_filter
  calc passCols w.2 (passRows w.1 f) i j ^ 2
      ≤ passCols w.2 (fun a b => passRows w.1 f a b ^ 2) i j :=
        passCols_sq_le _ _ _ _
    _ ≤ passCols w.2 (passRows w.1 (fun a b => f a b ^ 2)) i j := by
        unfold passCols
        exact boxMean_mono _ fun t => passRows_sq_le _ _ _ _

/-- The variance entry of `moving_window_sd` equals the unclamped
mean-of-squares minus squared-mean: in exact arithmetic the clamp
`t2[t2 < 0] = 0` never fires. -/
theorem moving_window_sd_var_eq (w : ℕ × ℕ) (data : Mat m n α)
    (i : Fin m) (j : Fin n) :
    (moving_window_sd w data).1 i j =
      uniform_filter w (fun a b => data a b ^ 2) i j -
        uniform_filter w data i j ^ 2 := by
  unfold moving_window_sd
  simp only
  rw [if_neg (not_lt.2 (sub_nonneg.2 (uniform_sq_le w data i j)))]

/-! ## Per-region overall variance (the behaviour claimed by the spec
for `lee_filter`; the source actually computes one scalar) -/

/-- 4-connectivity adjacency of two pixel coordinates (the scipy
`label` default structuring element in 2-D). -/
def adj4 (p q : Fin m × Fin n) : Prop :=
  (p.1 = q.1 ∧ ((p.2 : ℕ) + 1 = q.2 ∨ (q.2 : ℕ) + 1 = p.2)) ∨
  (p.2 = q.2 ∧ ((p.1 : ℕ) + 1 = q.1 ∨ (q.1 : ℕ) + 1 = p.1))

instance (p q : Fin m × Fin n) : Decidable (adj4 p q) := by
  unfold adj4; infer_instance

/-- One step of region growing: add every non-zero pixel adjacent to the
current set. -/
def regionStep (img : Mat m n α) (s : Finset (Fin m × Fin n)) :
    Finset (Fin m × Fin n) :=
  s ∪ Finset.univ.filter
    (fun q => img q.1 q.2 ≠ 0 ∧ ∃ p ∈ s, adj4 p q)

/-- The 4-connected component of non-zero pixels containing `p`
(saturated after `m * n` growth steps). -/
def region (img : Mat m n α) (p : Fin m × Fin n) :
    Finset (Fin m × Fin n) :=
  (regionStep img)^[m * n] {p}

/-- Modelled from the spec: the spec's reading of `lee_filter` in which
"the overall variance used in the per-pixel weight is computed
separately for each labeled region and each pixel receives its own
region's overall-variance value".  Identical to `lee_filter` except
that the overall-variance term at a non-zero pixel is the population
variance of that pixel's own 4-connected non-zero region (a background
pixel belongs to no labeled region, hence `nan`, matching an empty
scipy selection). -/
def lee_filter_regional (w : ℕ × ℕ) (img : Mat m n α) : Mat m n (Fl α) :=
  let vm := moving_window_sd w img
  fun i j =>
    let ov : Fl α :=
      if img i j ≠ 0 then .fin (setVariance img (region img (i, j))) else .nan
    let ovv := Fl.add ov (.fin (vm.1 i j))
    let d1 := img i j - vm.2 i j
    let wt := Fl.div (.fin (vm.1 i j)) ovv
    Fl.add (.fin (vm.2 i j)) (Fl.mul wt (.fin d1))

/-! ## Integer-dtype behaviour (`lee_filter2` without the float copy) -/

/-- Wraparound of signed 32-bit integer arithmetic (numpy `int32`). -/
def wrap32 (z : ℤ) : ℤ := (z + 2 ^ 31) % 2 ^ 32 - 2 ^ 31

/-- One 1-D box pass of `scipy.ndimage.uniform_filter` on an `int32`
array: scipy accumulates the moving sum in double precision, divides by
the window size and casts the result back to the integer output dtype,
truncating toward zero (C cast); with in-range `int32` data the sum and
quotient are exact in double, so the pass is `Int.tdiv (sum) k`. -/
def passColsInt (k : ℕ) (f : Mat m n ℤ) : Mat m n ℤ :=
  fun i j => Int.tdiv
    (∑ t ∈ Finset.range k, f i (reflIx j ((j : ℤ) + t - (k / 2 : ℕ)))) (k : ℤ)

def passRowsInt (k : ℕ) (f : Mat m n ℤ) : Mat m n ℤ :=
  fun i j => Int.tdiv
    (∑ t ∈ Finset.range k, f (reflIx i ((i : ℤ) + t - (k / 2 : ℕ))) j) (k : ℤ)

/-- `uniform_filter` on an `int32` array: the separable passes, each
truncated to the integer dtype. -/
def uniform_filter_int (w : ℕ × ℕ) (f : Mat m n ℤ) : Mat m n ℤ :=
  passColsInt w.2 (passRowsInt w.1 f)

/-- `lee_filter2` applied to an `int32` array: there is no conversion
step, so `np.square(img)`, `img_mean**2` and the integer subtractions
wrap modulo `2^32`, and the box means are truncated to `int32`; only
`variance(img)` (a float64 scalar) and the final true divisions and
weighted sum are float, embedded as exact rationals. -/
def lee_filter2_int (w : ℕ × ℕ) (img : Mat m n ℤ) : Mat m n (Fl ℚ) :=
  let img_mean := uniform_filter_int w img
  let img_sqr := fun i j => wrap32 (img i j * img i j)
  let img_sqr_mean := uniform_filter_int w img_sqr
  let img_variance := fun i j =>
    wrap32 (img_sqr_mean i j - wrap32 (img_mean i j * img_mean i j))
  let ov : ℚ := setVariance (fun i j => ((img i j : ℚ))) Finset.univ
  fun i j =>
    let wt := Fl.div (.fin ((img_variance i j : ℚ)))
      (Fl.add (.fin ((img_variance i j : ℚ))) (.fin ov))
    Fl.add (.fin ((img_mean i j : ℚ)))
      (Fl.mul wt (.fin ((wrap32 (img i j - img_mean i j) : ℚ))))

/-- The float32 conversion `d = np.array(img, dtype='float32')`
performed by `lee_filter` (line 62) and `enhanced_lee_filter`
(line 121) on an integer input; exact for `|z| ≤ 2^24`, which covers
every value used in this development. -/
def asFloat32 (img : Mat m n ℤ) : Mat m n ℚ := fun i j => ((img i j : ℚ))

/-- `lee_filter` applied to an `int32` array: the first statement of the
source converts the data to `float32`, so the whole pipeline runs on the
(exactly converted) float values. -/
def lee_filter_of_int (w : ℕ × ℕ) (img : Mat m n ℤ) : Mat m n (Fl ℚ) :=
  lee_filter w (asFloat32 img)

/-! ## Buffer-level embedding of `lee_filter` (aliasing model) -/

/-- A store of numpy array buffers, addressed by natural numbers: the
caller's band array lives at one address, and every allocation made by
`lee_filter` gets a fresh address. -/
def BufStore (m n : ℕ) := ℕ → Mat m n (Fl ℚ)

/-- Write buffer `p` of a store. -/
def bufWrite (σ : BufStore m n) (p : ℕ) (v : Mat m n (Fl ℚ)) : BufStore m n :=
  fun q => if q = p then v else σ q

/-- Pointwise lift of a binary `Fl` operation to whole buffers. -/
def map2Fl (op : Fl ℚ → Fl ℚ → Fl ℚ) (a b : Mat m n (Fl ℚ)) :
    Mat m n (Fl ℚ) :=
  fun i j => op (a i j) (b i j)

/-- `np.square` on a buffer that may hold special values. -/
def sqFl (a : Mat m n (Fl ℚ)) : Mat m n (Fl ℚ) :=
  fun i j => Fl.mul (a i j) (a i j)

/-- The clamp `t2[t2 < 0] = 0` on a buffer (a `nan` entry fails the
comparison and is left unchanged, as in numpy). -/
def clampFl (a : Mat m n (Fl ℚ)) : Mat m n (Fl ℚ) :=
  fun i j => if Fl.lt (a i j) (.fin 0) then .fin 0 else a i j

/-- Box-mean over a list of lattice values (used only by the buffer-level
model, where a buffer may in principle hold special values). -/
def boxMeanFl (k : ℕ) (g : ℕ → Fl ℚ) : Fl ℚ :=
  Fl.div (((List.range k).map g).foldr Fl.add (.fin 0)) (.fin (k : ℚ))

/-- `uniform_filter` on a lattice-valued buffer: the two separable
passes, as in the exact-valued model. -/
def uniformFl (w : ℕ × ℕ) (f : Mat m n (Fl ℚ)) : Mat m n (Fl ℚ) :=
  fun i j =>
    boxMeanFl w.2 (fun t =>
      boxMeanFl w.1 (fun s =>
        f (reflIx i ((i : ℤ) + s - (w.1 / 2 : ℕ)))
          (reflIx j ((j : ℤ) + t - (w.2 / 2 : ℕ)))))

/-- `variance(d, label(d))` on a lattice-valued buffer: population
variance over the entries different from `0` (a `nan` entry is non-zero
for `label`); `0/0 = nan` on an all-zero buffer. -/
def nonzeroVarianceFl (a : Mat m n (Fl ℚ)) : Fl ℚ :=
  let s := ((List.finRange m).flatMap
    (fun i => (List.finRange n).map (fun j => (i, j)))).filter
      (fun p => decide (a p.1 p.2 ≠ .fin 0))
  let c : Fl ℚ := .fin (s.length : ℚ)
  let mu := Fl.div ((s.map (fun p => a p.1 p.2)).foldr Fl.add (.fin 0)) c
  Fl.div ((s.map (fun p =>
    Fl.mul (Fl.sub (a p.1 p.2) mu) (Fl.sub (a p.1 p.2) mu))).foldr
      Fl.add (.fin 0)) c

/-- Buffer-level embedding of `lee_filter(img, window)` together with the
`moving_window_sd` call it makes, with every numpy allocation and every
in-place `out=` target explicit.  The caller's array lives at address
`imgPtr`; `fresh` is the first unused address.  Addresses:
`d = fresh` (the float32 working copy of line 62), `t1 = fresh + 1`,
`t2 = fresh + 2`, `mean = fresh + 3` (inside `moving_window_sd`),
`overall = fresh + 4` (the broadcast `np.add(overall_variance,
img_variance)` of line 69, which allocates).  Returns the final store
and the address of the result buffer. -/
def lee_filter_run (σ : BufStore m n) (imgPtr fresh : ℕ) (w : ℕ × ℕ) :
    BufStore m n × ℕ :=
  -- d = np.array(img, dtype='float32')          (line 62: a fresh copy)
  let d := fresh
  let σ := bufWrite σ d (σ imgPtr)
  -- moving_window_sd(d, window, return_mean=True, return_variance=True):
  -- t1 = data.copy()                            (line 153)
  let t1 := fresh + 1
  let σ := bufWrite σ t1 (σ d)
  -- t2 = np.square(t1)                          (line 154)
  let t2 := fresh + 2
  let σ := bufWrite σ t2 (sqFl (σ t1))
  -- uniform_filter(t1, window, output=t1)       (line 156)
  let σ := bufWrite σ t1 (uniformFl w (σ t1))
  -- uniform_filter(t2, window, output=t2)       (line 157)
  let σ := bufWrite σ t2 (uniformFl w (σ t2))
  -- m = t1.copy()                               (line 160)
  let mb := fresh + 3
  let σ := bufWrite σ mb (σ t1)
  -- np.square(t1, out=t1)                       (line 162)
  let σ := bufWrite σ t1 (sqFl (σ t1))
  -- np.subtract(t2, t1, out=t2)                 (line 163)
  let σ := bufWrite σ t2 (map2Fl Fl.sub (σ t2) (σ t1))
  -- t2[t2 < 0] = 0                              (line 164)
  let σ := bufWrite σ t2 (clampFl (σ t2))
  -- lbl, nlbl = label(d); overall_variance = variance(d, lbl)  (65-66)
  let ovScalar := nonzeroVarianceFl (σ d)
  -- overall_variance = np.add(overall_variance, img_variance)  (line 69)
  let ovb := fresh + 4
  let σ := bufWrite σ ovb (fun i j => Fl.add ovScalar ((σ t2) i j))
  -- np.subtract(d, img_mean, out=d)             (line 72)
  let σ := bufWrite σ d (map2Fl Fl.sub (σ d) (σ mb))
  -- np.divide(img_variance, overall_variance, out=img_variance) (line 75)
  let σ := bufWrite σ t2 (map2Fl Fl.div (σ t2) (σ ovb))
  -- np.multiply(img_variance, d, out=d)         (line 79)
  let σ := bufWrite σ d (map2Fl Fl.mul (σ t2) (σ d))
  -- np.add(img_mean, d, out=d)                  (line 81)
  let σ := bufWrite σ d (map2Fl Fl.add (σ mb) (σ d))
  (σ, d)

/-! ## The band driver `filter_image` -/

/-- The closed set of filters of the dispatch dictionary
`{'lee': lee_filter, 'elee': enhanced_lee_filter}`. -/
inductive FilterKind where
  | lee
  | elee
deriving DecidableEq, Repr

/-- Python `str.lower()` restricted to ASCII, which covers the filter
names involved (`String.toLower` itself does not reduce well in the
kernel, so the character map is spelled out). -/
def strLower (s : String) : String :=
  String.mk (s.data.map
    (fun c => if 'A' ≤ c ∧ c ≤ 'Z' then Char.ofNat (c.toNat + 32) else c))

/-- The dictionary lookup `{'lee': ..., 'elee': ...}[filter.lower()]` of
lines 216-218: `none` is the Python `KeyError` (the failure the spec's
taxonomy calls `ConfigurationError`). -/
def lookup_filter (name : String) : Option FilterKind :=
  if strLower name = "lee" then some .lee
  else if strLower name = "elee" then some .elee
  else none

/-- Error raised by the driver before any band is processed. -/
inductive DriverError where
  | configurationError
deriving DecidableEq, Repr

/-- Observable interactions of `filter_image` with the raster source and
sink. -/
inductive Ev where
  | readArray
  | writeBand (i : ℕ)
  | flush
deriving DecidableEq, Repr

/-- A GDAL raster handle: its per-band contents (`β` is the content of
one band) and how many times `FlushCache` has been called on it. -/
structure Raster (β : Type) where
  bands : List β
  flushes : ℕ
deriving DecidableEq, Repr

/-- Modelled from the spec: `cloneRaster` (in `SSWM.preprocess.preutils`,
not part of the sources at hand) creates the raster sink "by cloning the
source's georeferencing/metadata and allocating same-shaped bands"; the
allocated band contents are the collaborator's blank value. -/
def cloneRaster {β : Type} (blank : β) (r : Raster β) : Raster β :=
  { bands := r.bands.map (fun _ => blank), flushes := 0 }

/-- `out.GetRasterBand(i + 1).WriteArray(v)`: replace band `i`
(0-based here; GDAL band numbers are 1-based). -/
def writeBand {β : Type} (r : Raster β) (i : ℕ) (v : β) : Raster β :=
  { r with bands := r.bands.set i v }

/-- `filter_image(img, output, filter, **kwargs)` (lines 203-249).  The
band transform selected for each `FilterKind` is a parameter `app` (the
dictionary maps the names to `lee_filter` and `enhanced_lee_filter`,
whose keyword arguments are forwarded verbatim), `useOutput` is whether
an explicit `output` path was given, and `blank` is the sink
collaborator's fresh-band content.  Returns the Python outcome — either
the `KeyError`/`ConfigurationError` or the final states of the source
raster and (if created) the output raster — paired with the trace of
source/sink interactions in program order. -/
def filter_image {β : Type} (app : FilterKind → β → β) (blank : β)
    (name : String) (img : Raster β) (useOutput : Bool) :
    Except DriverError (Raster β × Option (Raster β)) × List Ev :=
  match lookup_filter name with
  | none => (.error .configurationError, [])
  | some k =>
    -- arr = img.ReadAsArray()  (a snapshot, taken before any write)
    let arr := img.bands
    let len := img.bands.length
    let events := Ev.readArray ::
      ((List.range len).map (fun i => Ev.writeBand (i + 1)) ++ [Ev.flush])
    if useOutput then
      -- out = cloneRaster(img, output); loop writes to out; out.FlushCache()
      let out0 := cloneRaster blank img
      let out1 := (List.range len).foldl
        (fun o i => writeBand o i (app k (arr.getD i blank))) out0
      (.ok (img, some { out1 with flushes := out1.flushes + 1 }), events)
    else
      -- out = img: the loop writes back into the source's own bands
      let out1 := (List.range len).foldl
        (fun o i => writeBand o i (app k (arr.getD i blank))) img
      (.ok ({ out1 with flushes := out1.flushes + 1 }, none), events)

/-! ## Frame lemma for the band loop -/

theorem bufWrite_ne {σ : BufStore m n} {p q : ℕ} {v : Mat m n (Fl ℚ)}
    (h : q ≠ p) : bufWrite σ p v q = σ q := by
  unfold bufWrite
  exact if_neg h

theorem foldl_writeBand {β : Type} (f : β → β) (blank : β) (arr : List β)
    (r0 : Raster β) (hlen : r0.bands.length = arr.length) :
    (List.range arr.length).foldl
      (fun o i => writeBand o i (f (arr.getD i blank))) r0 =
    { bands := arr.map f, flushes := r0.flushes } := by
  have aux : ∀ k, k ≤ arr.length →
      (List.range k).foldl
        (fun o i => writeBand o i (f (arr.getD i blank))) r0 =
      { bands := (arr.take k).map f ++ r0.bands.drop k,
        flushes := r0.flushes } := by
    intro k
    induction k with
    | zero => intro _; simp
    | succ k ih =>
      intro hk
      have hk0 : k ≤ arr.length := Nat.le_of_succ_le hk
      have hklt : k < arr.length := hk
      have hklt0 : k < r0.bands.length := by omega
      rw [List.range_succ, List.foldl_append, ih hk0]
      unfold writeBand
      simp only [List.foldl_cons, List.foldl_nil]
      congr 1
      have hpre : ((arr.take k).map f).length = k := by
        simp [List.length_take]; omega
      rw [List.set_append_right _ _ (by omega)]
      rw [List.drop_eq_getElem_cons hklt0]
      simp only [hpre, Nat.sub_self, List.set_cons_zero]
      have htake : List.take (k + 1) (List.map f arr) =
          List.take k (List.map f arr) ++ [f arr[k]] := by
        rw [List.take_succ, List.getElem?_map, List.getElem?_eq_getElem hklt]
        rfl
      simp [htake, List.getElem?_eq_getElem hklt]
  have := aux arr.length (le_refl _)
  rw [this, List.take_of_length_le (le_refl _), List.drop_of_length_le (by omega)]
  simp

/-! ## C6: the windowed variance is never negative -/

/-- C6: for every input array and window, the local variance produced by
the windowed-statistics machinery is never negative.  First conjunct:
the variance output of `moving_window_sd` (the clamp `t2[t2 < 0] = 0`
makes this unconditional).  Second conjunct: the radicand
`img_sqr_mean - img_mean²` consumed by `window_stdev`'s square root is
non-negative in exact arithmetic (Jensen's inequality for the reflected
box mean, applied to each separable pass), so no negative variance is
used there either. -/
theorem windowed_variance_nonneg :
    (∀ (m n : ℕ) (img : Mat m n ℝ) (w : ℕ × ℕ) (i : Fin m) (j : Fin n),
        0 ≤ (moving_window_sd w img).1 i j) ∧
    (∀ (m n : ℕ) (img : Mat m n ℝ) (w : ℕ × ℕ) (i : Fin m) (j : Fin n),
        0 ≤ uniform_filter w (fun a b => img a b ^ 2) i j -
              uniform_filter w img i j ^ 2) := by
  constructor
  · intro m n img w i j
    unfold moving_window_sd
    simp only
    split
    · exact le_refl 0
    · next h => exact not_lt.1 h
  · intro m n img w i j
    exact sub_nonneg.2 (uniform_sq_le w img i j)

/-! ## C9: `lee_filter` never touches the caller's array -/

/-- C9: running the buffer-level `lee_filter` pipeline leaves the
caller's array buffer `imgPtr` exactly as it was: the first statement
`d = np.array(img, dtype='float32')` allocates a working copy at a
fresh address and every subsequent in-place operation (`out=...`,
`*=`, item assignment) targets the working buffers only; the returned
result buffer is distinct from the caller's. -/
theorem lee_filter_run_frame (m n : ℕ) (σ : BufStore m n)
    (imgPtr fresh : ℕ) (w : ℕ × ℕ) (h : imgPtr < fresh) :
    (lee_filter_run σ imgPtr fresh w).1 imgPtr = σ imgPtr ∧
    (lee_filter_run σ imgPtr fresh w).2 ≠ imgPtr := by
  refine ⟨?_, by simp only [lee_filter_run]; omega⟩
  simp only [lee_filter_run]
  repeat rw [bufWrite_ne (by omega)]

/-- Witness for C9 at a concrete store and addresses. -/
theorem lee_filter_run_frame_witness :
    (0 : ℕ) < 1 ∧
    ((lee_filter_run (fun _ => (fun _ _ => .fin 0 : Mat 1 1 (Fl ℚ))) 0 1
        (5, 5)).1 0 = fun _ _ => .fin 0) ∧
    (lee_filter_run (fun _ => (fun _ _ => .fin 0 : Mat 1 1 (Fl ℚ))) 0 1
        (5, 5)).2 ≠ 0 :=
  ⟨by decide,
   (lee_filter_run_frame 1 1 _ 0 1 (5, 5) (by decide)).1,
   (lee_filter_run_frame 1 1 _ 0 1 (5, 5) (by decide)).2⟩

/-! ## C7: unknown filter name fails fast -/

/-- C7: a filter name that is not `lee` or `elee` (case-insensitively)
makes `filter_image` fail with the configuration error (the `KeyError`
of the dictionary lookup at lines 216-218, the failure the spec's
taxonomy names `ConfigurationError`), and the failure happens before
any interaction with the raster source or sink: the event trace is
empty, no band is read or written, and no output raster is created. -/
theorem filter_image_unknown_name {β : Type} (app : FilterKind → β → β)
    (blank : β) (name : String) (img : Raster β) (useOutput : Bool)
    (h1 : strLower name ≠ "lee") (h2 : strLower name ≠ "elee") :
    filter_image app blank name img useOutput =
      (.error .configurationError, []) := by
  unfold filter_image lookup_filter
  rw [if_neg h1, if_neg h2]

/-- Witness for C7: the unknown name `boxcar` on a concrete 2-band
raster. -/
theorem filter_image_unknown_name_witness :
    strLower "boxcar" ≠ "lee" ∧ strLower "boxcar" ≠ "elee" ∧
    filter_image (fun _ b => b) (0 : ℕ) "boxcar"
        { bands := [7, 9], flushes := 0 } true =
      (.error .configurationError, []) :=
  ⟨by decide, by decide,
   filter_image_unknown_name _ _ _ _ _ (by decide) (by decide)⟩

/-! ## C8: frame behaviour of the band driver -/

/-- C8: for any raster and any band transform bound to the name `lee`:
with an explicit output (`useOutput = true`) the source raster is
returned unchanged (bands and flush count), the output raster holds
every band's independently filtered result and has been flushed exactly
once, and the trace reads the source once, writes bands `1..k` in
order, and flushes last; with `output=None` (`useOutput = false`) the
source's own bands are overwritten with the filtered results (re-reading
a band yields the freshly computed filter output) and flushed once
more. -/
theorem filter_image_lee_frame {β : Type} (app : FilterKind → β → β)
    (blank : β) (r : Raster β) :
    filter_image app blank "lee" r true =
      (.ok (r, some { bands := r.bands.map (app .lee), flushes := 1 }),
        Ev.readArray ::
          ((List.range r.bands.length).map (fun i => Ev.writeBand (i + 1)) ++
            [Ev.flush])) ∧
    filter_image app blank "lee" r false =
      (.ok ({ bands := r.bands.map (app .lee), flushes := r.flushes + 1 },
          none),
        Ev.readArray ::
          ((List.range r.bands.length).map (fun i => Ev.writeBand (i + 1)) ++
            [Ev.flush])) := by
  have hlee : lookup_filter "lee" = some FilterKind.lee := by decide
  unfold filter_image
  rw [hlee]
  constructor
  · simp only [if_true]
    rw [foldl_writeBand (app .lee) blank r.bands (cloneRaster blank r)
      (by simp [cloneRaster])]
    simp [cloneRaster]
  · simp only [Bool.false_eq_true, if_false]
    rw [foldl_writeBand (app .lee) blank r.bands r rfl]

/-! ## Constant (flat) inputs -/

theorem boxMean_const (k : ℕ) (hk : 0 < k) (c : α) :
    boxMean k (fun _ => c) = c := by
  unfold boxMean
  rw [Finset.sum_const, Finset.card_range, nsmul_eq_mul]
  exact mul_div_cancel_left₀ c (by exact_mod_cast hk.ne')

theorem uniform_filter_const (k0 k1 : ℕ) (h0 : 0 < k0) (h1 : 0 < k1)
    (c : α) (i : Fin m) (j : Fin n) :
    uniform_filter (k0, k1) (fun _ _ => c) i j = c := by
  unfold uniform_filter passCols passRows
  simp only [boxMean_const k0 h0]
  exact boxMean_const k1 h1 c

theorem setVariance_const (c : α) (s : Finset (Fin m × Fin n)) :
    setVariance (fun _ _ => c) s = 0 := by
  unfold setVariance
  rcases eq_or_ne s.card 0 with hc | hc
  · rw [Finset.card_eq_zero.1 hc]
    simp
  · have hcast : ((s.card : α)) ≠ 0 := by exact_mod_cast hc
    simp only [Finset.sum_const, nsmul_eq_mul, mul_div_cancel_left₀ _ hcast,
      sub_self]
    simp [zero_pow]

theorem nonzeroVariance_const (c : α) (i : Fin m) (j : Fin n) :
    nonzeroVariance (fun _ _ => c : Mat m n α) =
      if c = 0 then .nan else .fin 0 := by
  rcases eq_or_ne c 0 with rfl | hc
  · simp [nonzeroVariance]
  · have hfilter : Finset.univ.filter
        (fun p : Fin m × Fin n => (fun _ _ => c : Mat m n α) p.1 p.2 ≠ 0) =
          Finset.univ := Finset.filter_true_of_mem (fun p _ => hc)
    have hne : (Finset.univ : Finset (Fin m × Fin n)).card ≠ 0 := by
      have hm0 : 0 < m := i.pos
      have hn0 : 0 < n := j.pos
      simp only [Finset.card_univ, Fintype.card_prod, Fintype.card_fin]
      positivity
    simp only [nonzeroVariance, hfilter, if_neg hne, if_neg hc,
      setVariance_const]

theorem allVariance_const (c : α) (i : Fin m) (j : Fin n) :
    allVariance (fun _ _ => c : Mat m n α) = .fin 0 := by
  have hne : (Finset.univ : Finset (Fin m × Fin n)).card ≠ 0 := by
    have hm0 : 0 < m := i.pos
    have hn0 : 0 < n := j.pos
    simp only [Finset.card_univ, Fintype.card_prod, Fintype.card_fin]
    positivity
  simp only [allVariance, if_neg hne, setVariance_const]

/-! ## C3: flat input makes both Lee filters return NaN -/

/-- C3: on a perfectly flat array (every pixel equal to `c`) the local
variance and the overall variance are both exactly zero, and neither
`lee_filter` nor `lee_filter2` has any 0/0 fallback: the weight is
`0 / 0 = nan` and the output is `nan` at every pixel, not the constant
input.  (This holds for any constant `c`, any array shape, and any
positive window.) -/
theorem lee_filter_flat_nan (i : Fin m) (j : Fin n) (c : ℚ) (k0 k1 : ℕ)
    (h0 : 0 < k0) (h1 : 0 < k1) :
    lee_filter (k0, k1) (fun _ _ => c) i j = .nan ∧
    lee_filter2 (k0, k1) (fun _ _ => c) i j = .nan := by
  have hm := uniform_filter_const k0 k1 h0 h1 c i j
  have hsq := uniform_filter_const k0 k1 h0 h1 (c ^ 2) i j
  constructor
  · simp only [lee_filter, moving_window_sd, hm, hsq, sub_self]
    rcases eq_or_ne c 0 with rfl | hc
    · simp [nonzeroVariance_const (0 : ℚ) i j, Fl.add, Fl.div, Fl.mul]
    · simp [nonzeroVariance_const c i j, hc, Fl.add, Fl.div, Fl.mul]
  · simp only [lee_filter2, hm, hsq, sub_self]
    simp [allVariance_const c i j, Fl.add, Fl.div, Fl.mul]

/-- Witness for C3 at the spec's end-to-end scenario: a 10×10 array of
constant value 100 with window `(3,3)`. -/
theorem lee_filter_flat_nan_witness :
    (0 : ℕ) < 3 ∧
    lee_filter (3, 3) (fun _ _ => (100 : ℚ) : Mat 10 10 ℚ) 0 0 = .nan ∧
    lee_filter2 (3, 3) (fun _ _ => (100 : ℚ) : Mat 10 10 ℚ) 0 0 = .nan :=
  ⟨by decide,
   (lee_filter_flat_nan 0 0 100 3 3 (by decide) (by decide)).1,
   (lee_filter_flat_nan 0 0 100 3 3 (by decide) (by decide)).2⟩

/-! ## C5: the two Lee filter variants -/

/-- The mean returned by `moving_window_sd` is the box mean. -/
theorem moving_window_sd_mean_eq (w : ℕ × ℕ) (data : Mat m n α) :
    (moving_window_sd w data).2 = uniform_filter w data := rfl

/-- C5 (amended): on an array with no zero entry the two Lee variants
agree exactly (in exact arithmetic): their local statistics coincide
(the clamp of `moving_window_sd` never fires, by Jensen), and
`variance(d, label(d))` degenerates to `variance(img)` because every
pixel is labeled.  When the array contains zeros the two variants use
different overall variances and genuinely differ
(`lee_filter_variants_differ`). -/
theorem lee_filter_eq_lee_filter2_nonzero (w : ℕ × ℕ) (img : Mat m n ℚ)
    (h : ∀ i j, img i j ≠ 0) :
    lee_filter w img = lee_filter2 w img := by
  funext i j
  have hfilter : Finset.univ.filter
      (fun p : Fin m × Fin n => img p.1 p.2 ≠ 0) = Finset.univ :=
    Finset.filter_true_of_mem (fun p _ => h p.1 p.2)
  have hov : nonzeroVariance img = allVariance img := by
    simp only [nonzeroVariance, allVariance, hfilter]
  simp only [lee_filter, lee_filter2, hov, moving_window_sd_var_eq,
    moving_window_sd_mean_eq]
  congr 1
  congr 1
  congr 1
  exact Fl.add_comm2 _ _

/-- Witness for the amended C5 on a concrete all-non-zero array. -/
theorem lee_filter_eq_lee_filter2_nonzero_witness :
    (∀ (i : Fin 1) (j : Fin 1), ((fun _ _ => (1 : ℚ)) : Mat 1 1 ℚ) i j ≠ 0) ∧
    lee_filter (3, 3) ((fun _ _ => (1 : ℚ)) : Mat 1 1 ℚ) =
      lee_filter2 (3, 3) ((fun _ _ => (1 : ℚ)) : Mat 1 1 ℚ) :=
  ⟨fun _ _ => by norm_num,
   lee_filter_eq_lee_filter2_nonzero (3, 3) _ (fun _ _ => by norm_num)⟩

/-- The 1×2 array `[0, 6]`. -/
def img06 : Mat 1 2 ℚ := fun _ j => if (j : ℕ) = 0 then 0 else 6

/-- C5 (counterexample): on the array `[0, 6]` with the same window
`(3,3)` for both variants, `lee_filter` (overall variance over the
labeled non-zero pixels only: `variance{6} = 0`, weight `1`) returns
the original pixel `0`, while `lee_filter2` (overall variance over all
pixels: `variance{0,6} = 9`, weight `8/17`) returns `18/17`; the
relative gap is 1, far beyond the claimed `1e-5` tolerance. -/
theorem lee_filter_variants_differ :
    lee_filter (3, 3) img06 0 0 = .fin 0 ∧
    lee_filter2 (3, 3) img06 0 0 = .fin (18 / 17) ∧
    ¬ |(0 : ℚ) - 18 / 17| ≤ (1 / 100000) * max |(0 : ℚ)| |(18 / 17 : ℚ)| := by
  have hrow : ∀ (i : Fin 1) (z : ℤ), reflIx i z = i :=
    fun i z => Subsingleton.elim _ _
  have h1 : reflIx (0 : Fin 2) (-1) = 0 := by decide
  have h2 : reflIx (0 : Fin 2) 0 = 0 := by decide
  have h3 : reflIx (0 : Fin 2) 1 = 1 := by decide
  have hs : (Finset.univ.filter (fun p : Fin 1 × Fin 2 => img06 p.1 p.2 ≠ 0))
      = {(0, 1)} := by decide
  have hmean : uniform_filter (3, 3) img06 0 0 = 2 := by
    norm_num [uniform_filter, passCols, passRows, boxMean, hrow, h1, h2, h3,
      Finset.sum_range_succ, img06]
  have hsq : uniform_filter (3, 3) (fun i j => img06 i j ^ 2) 0 0 = 12 := by
    norm_num [uniform_filter, passCols, passRows, boxMean, hrow, h1, h2, h3,
      Finset.sum_range_succ, img06]
  have hov : nonzeroVariance img06 = .fin 0 := by
    rw [nonzeroVariance]
    simp only [hs]
    norm_num [setVariance, Finset.sum_singleton, img06]
  have hav : allVariance img06 = .fin 9 := by
    rw [allVariance]
    norm_num [setVariance, Fintype.sum_prod_type, Fin.sum_univ_succ, img06]
  refine ⟨?_, ?_, ?_⟩
  · simp only [lee_filter, moving_window_sd, hmean, hsq, hov]
    norm_num [Fl.add, Fl.div, Fl.mul, img06]
  · simp only [lee_filter2, hmean, hsq, hav]
    norm_num [Fl.add, Fl.div, Fl.mul, img06]
  · intro hcontra
    rw [zero_sub, abs_neg, abs_of_nonneg (by norm_num : (0 : ℚ) ≤ 18 / 17),
      abs_zero, max_eq_right (by norm_num : (0 : ℚ) ≤ 18 / 17)] at hcontra
    norm_num at hcontra

/-! ## C4: the overall variance of `lee_filter` is one scalar, not
per-region -/

/-- C4 (amended): what `lee_filter` actually computes.  The
overall-variance term in every pixel's weight is the single scalar
`nonzeroVariance img` — the population variance of the pixels in the
union of all labeled (non-zero) regions (`variance(d, lbl)` with
`index=None`) — not a per-pixel, per-region value; it is added to the
local variance, and the weight is `local / (overall + local)`. -/
theorem lee_filter_overall_is_scalar (w : ℕ × ℕ) (img : Mat m n ℚ)
    (i : Fin m) (j : Fin n) :
    lee_filter w img i j =
      Fl.add (.fin (uniform_filter w img i j))
        (Fl.mul
          (Fl.div (.fin ((moving_window_sd w img).1 i j))
            (Fl.add (nonzeroVariance img)
              (.fin ((moving_window_sd w img).1 i j))))
          (.fin (img i j - uniform_filter w img i j))) := rfl

/-- The 1×5 array `[1, 3, 0, 10, 20]`: two disconnected non-zero
regions `{1, 3}` (variance 1) and `{10, 20}` (variance 25) separated by
a zero pixel; the variance over all four non-zero pixels is `221/4`. -/
def img45 : Mat 1 5 ℚ := fun _ j =>
  if (j : ℕ) = 0 then 1 else if (j : ℕ) = 1 then 3
  else if (j : ℕ) = 2 then 0 else if (j : ℕ) = 3 then 10 else 20

/-- C4 (counterexample): on `[1, 3, 0, 10, 20]` with window `(1,3)` the
source `lee_filter` uses the scalar overall variance `221/4` at pixel
`(0,0)` and returns `3347/2021`, whereas the spec's per-region reading
(`lee_filter_regional`, overall variance `1` of the pixel's own region
`{1, 3}`) would return `23/17`: the claim that each pixel receives its
own region's overall variance is false on the code. -/
theorem lee_filter_not_regional :
    lee_filter (1, 3) img45 0 0 = .fin (3347 / 2021) ∧
    lee_filter_regional (1, 3) img45 0 0 = .fin (23 / 17) ∧
    (Fl.fin (3347 / 2021 : ℚ)) ≠ (Fl.fin (23 / 17 : ℚ)) := by
  have hrow : ∀ (i : Fin 1) (z : ℤ), reflIx i z = i :=
    fun i z => Subsingleton.elim _ _
  have hc1 : reflIx (0 : Fin 5) (-1) = 0 := by decide
  have hc2 : reflIx (0 : Fin 5) 0 = 0 := by decide
  have hc3 : reflIx (0 : Fin 5) 1 = 1 := by decide
  have hmean : uniform_filter (1, 3) img45 0 0 = 5 / 3 := by
    norm_num [uniform_filter, passCols, passRows, boxMean, hrow, hc1, hc2,
      hc3, Finset.sum_range_succ, img45]
  have hsq : uniform_filter (1, 3) (fun i j => img45 i j ^ 2) 0 0 = 11 / 3 := by
    norm_num [uniform_filter, passCols, passRows, boxMean, hrow, hc1, hc2,
      hc3, Finset.sum_range_succ, img45]
  have h1 : ((0 : Fin 1), (0 : Fin 5)) ∉
      ({(0, 1), (0, 3), (0, 4)} : Finset (Fin 1 × Fin 5)) := by decide
  have h2 : ((0 : Fin 1), (1 : Fin 5)) ∉
      ({(0, 3), (0, 4)} : Finset (Fin 1 × Fin 5)) := by decide
  have h3 : ((0 : Fin 1), (3 : Fin 5)) ≠ ((0 : Fin 1), (4 : Fin 5)) := by decide
  have hvar4 : setVariance img45 {(0, 0), (0, 1), (0, 3), (0, 4)} = 221 / 4 := by
    have hmu : (∑ p ∈ ({(0, 0), (0, 1), (0, 3), (0, 4)} :
        Finset (Fin 1 × Fin 5)), img45 p.1 p.2) = 34 := by
      rw [Finset.sum_insert h1, Finset.sum_insert h2, Finset.sum_pair h3]
      norm_num [img45, show ((3 : Fin 5) : ℕ) = 3 from rfl,
        show ((4 : Fin 5) : ℕ) = 4 from rfl]
    have hcard : ({(0, 0), (0, 1), (0, 3), (0, 4)} :
        Finset (Fin 1 × Fin 5)).card = 4 := by
      rw [Finset.card_insert_of_not_mem h1, Finset.card_insert_of_not_mem h2,
        Finset.card_pair h3]
    simp only [setVariance, hmu, hcard]
    rw [Finset.sum_insert h1, Finset.sum_insert h2, Finset.sum_pair h3]
    norm_num [img45, show ((3 : Fin 5) : ℕ) = 3 from rfl,
      show ((4 : Fin 5) : ℕ) = 4 from rfl]
  have hov : nonzeroVariance img45 = .fin (221 / 4) := by
    rw [nonzeroVariance]
    rw [show (Finset.univ.filter
        (fun p : Fin 1 × Fin 5 => img45 p.1 p.2 ≠ 0))
      = {(0, 0), (0, 1), (0, 3), (0, 4)} from by decide]
    rw [if_neg (by decide), hvar4]
  have hpair : ((0 : Fin 1), (0 : Fin 5)) ≠ ((0 : Fin 1), (1 : Fin 5)) := by
    decide
  have hregvar : setVariance img45 (region img45 (0, 0)) = 1 := by
    rw [show region img45 (0, 0) = {(0, 0), (0, 1)} from by decide]
    have hmu : (∑ p ∈ ({(0, 0), (0, 1)} : Finset (Fin 1 × Fin 5)),
        img45 p.1 p.2) = 4 := by
      rw [Finset.sum_pair hpair]
      norm_num [img45]
    simp only [setVariance, hmu, Finset.card_pair hpair]
    rw [Finset.sum_pair hpair]
    norm_num [img45]
  refine ⟨?_, ?_, ?_⟩
  · simp only [lee_filter, moving_window_sd, hmean, hsq, hov]
    norm_num [Fl.add, Fl.div, Fl.mul, img45]
  · simp only [lee_filter_regional, moving_window_sd, hmean, hsq]
    rw [if_pos (by norm_num [img45] : img45 0 0 ≠ 0), hregvar]
    norm_num [Fl.add, Fl.div, Fl.mul, img45]
  · simp only [ne_eq, Fl.fin.injEq]
    norm_num

/-! ## C10: dtype behaviour (float32 conversion vs. int32 wraparound) -/

/-- The 1×3 `int32` array `[0, 0, 60000]`; `60000² = 3.6e9` overflows a
signed 32-bit integer. -/
def imgInt : Mat 1 3 ℤ := fun _ j => if (j : ℕ) = 2 then 60000 else 0

/-- Value of the integer-dtype `lee_filter2` at the pixel over the large
entry: the squares wrap (`wrap32 (60000²) < 0`), the truncated integer
box means propagate the wrapped values, and the final float division
yields `9179869180000/126331153 ≈ 72666`, a non-integer. -/
theorem lee_filter2_int_eval :
    lee_filter2_int (1, 3) imgInt 0 2 = .fin (9179869180000 / 126331153) := by
  have hmean : uniform_filter_int (1, 3) imgInt 0 2 = 40000 := by decide
  have hsqm : uniform_filter_int (1, 3)
      (fun i j => wrap32 (imgInt i j * imgInt i j)) 0 2 = -463311530 := by
    decide
  have hvar : wrap32 ((-463311530) - wrap32 (40000 * 40000))
      = -2063311530 := by decide
  have hov : setVariance (fun i j => ((imgInt i j : ℚ))) Finset.univ
      = 800000000 := by
    norm_num [setVariance, Fintype.sum_prod_type, Fin.sum_univ_succ, imgInt,
      Finset.card_univ]
  have h20 : wrap32 (60000 - 40000) = 20000 := by decide
  have h20b : wrap32 20000 = 20000 := by decide
  simp only [lee_filter2_int, hmean, hsqm, hvar, hov]
  norm_num [Fl.add, Fl.div, Fl.mul, imgInt, h20, h20b,
    show ((2 : Fin 3) : ℕ) = 2 from rfl]

/-- Value of the float32-converting `lee_filter` on the same integers:
the conversion is exact in this range, no wraparound occurs, and the
point pixel is preserved. -/
theorem lee_filter_of_int_eval :
    lee_filter_of_int (1, 3) imgInt 0 2 = .fin 60000 := by
  have hrow : ∀ (i : Fin 1) (z : ℤ), reflIx i z = i :=
    fun i z => Subsingleton.elim _ _
  have hc1 : reflIx (2 : Fin 3) 1 = 1 := by decide
  have hc2 : reflIx (2 : Fin 3) 2 = 2 := by decide
  have hc3 : reflIx (2 : Fin 3) 3 = 2 := by decide
  have hmean : uniform_filter (1, 3) (asFloat32 imgInt) 0 2 = 40000 := by
    norm_num [uniform_filter, passCols, passRows, boxMean, hrow, hc1, hc2,
      hc3, Finset.sum_range_succ, asFloat32, imgInt,
      show ((2 : Fin 3) : ℕ) = 2 from rfl, show ((1 : Fin 3) : ℕ) = 1 from rfl]
  have hsq : uniform_filter (1, 3) (fun i j => asFloat32 imgInt i j ^ 2) 0 2
      = 2400000000 := by
    norm_num [uniform_filter, passCols, passRows, boxMean, hrow, hc1, hc2,
      hc3, Finset.sum_range_succ, asFloat32, imgInt,
      show ((2 : Fin 3) : ℕ) = 2 from rfl, show ((1 : Fin 3) : ℕ) = 1 from rfl]
  have hov : nonzeroVariance (asFloat32 imgInt) = .fin 0 := by
    rw [nonzeroVariance]
    rw [show (Finset.univ.filter
        (fun p : Fin 1 × Fin 3 => asFloat32 imgInt p.1 p.2 ≠ 0))
      = {(0, 2)} from by decide]
    norm_num [setVariance, Finset.sum_singleton, asFloat32, imgInt,
      show ((2 : Fin 3) : ℕ) = 2 from rfl]
  simp only [lee_filter_of_int, lee_filter, moving_window_sd, hmean, hsq, hov]
  norm_num [Fl.add, Fl.div, Fl.mul, asFloat32, imgInt,
    show ((2 : Fin 3) : ℕ) = 2 from rfl]

/-- Value of the exact (float) `lee_filter2` on the converted integers,
for comparison with the integer-dtype run. -/
theorem lee_filter2_float_eval :
    lee_filter2 (1, 3) (asFloat32 imgInt) 0 2 = .fin 50000 := by
  have hrow : ∀ (i : Fin 1) (z : ℤ), reflIx i z = i :=
    fun i z => Subsingleton.elim _ _
  have hc1 : reflIx (2 : Fin 3) 1 = 1 := by decide
  have hc2 : reflIx (2 : Fin 3) 2 = 2 := by decide
  have hc3 : reflIx (2 : Fin 3) 3 = 2 := by decide
  have hmean : uniform_filter (1, 3) (asFloat32 imgInt) 0 2 = 40000 := by
    norm_num [uniform_filter, passCols, passRows, boxMean, hrow, hc1, hc2,
      hc3, Finset.sum_range_succ, asFloat32, imgInt,
      show ((2 : Fin 3) : ℕ) = 2 from rfl, show ((1 : Fin 3) : ℕ) = 1 from rfl]
  have hsq : uniform_filter (1, 3) (fun i j => asFloat32 imgInt i j ^ 2) 0 2
      = 2400000000 := by
    norm_num [uniform_filter, passCols, passRows, boxMean, hrow, hc1, hc2,
      hc3, Finset.sum_range_succ, asFloat32, imgInt,
      show ((2 : Fin 3) : ℕ) = 2 from rfl, show ((1 : Fin 3) : ℕ) = 1 from rfl]
  have hav : allVariance (asFloat32 imgInt) = .fin 800000000 := by
    rw [allVariance, if_neg (by decide)]
    norm_num [setVariance, Fintype.sum_prod_type, Fin.sum_univ_succ,
      asFloat32, imgInt, Finset.card_univ]
  simp only [lee_filter2, hmean, hsq, hav]
  norm_num [Fl.add, Fl.div, Fl.mul, asFloat32, imgInt,
    show ((2 : Fin 3) : ℕ) = 2 from rfl]

/-- C10 (counterexample): `lee_filter2` does NOT keep all of its
arithmetic in the input's integer dtype: on the `int32` array
`[0, 0, 60000]` its output at the last pixel is
`9179869180000/126331153`, which is not an integer at all
(`126331153` does not divide `9179869180000`) — the weight computation
is promoted to float by the true divisions. -/
theorem lee_filter2_int_output_not_integer :
    lee_filter2_int (1, 3) imgInt 0 2 = .fin (9179869180000 / 126331153) ∧
    (9179869180000 : ℤ) % 126331153 ≠ 0 :=
  ⟨lee_filter2_int_eval, by decide⟩

/-- C10 (amended): `lee_filter` (and `enhanced_lee_filter`, whose first
statement is the same float32 conversion) first copy the input into a
float array, so in-range integer data is processed exactly; but
`lee_filter2` has no conversion step, so its squaring and box
filtering happen in the input's own integer dtype — `np.square` wraps
(`wrap32 (60000 * 60000) = -694967296`) — and only the final
variance/weight arithmetic is promoted to float by true division; as a
result the integer-dtype run differs from the exact float pipeline
(`≈ 72666` instead of `50000`). -/
theorem int_dtype_behaviour :
    wrap32 (60000 * 60000) = -694967296 ∧
    lee_filter_of_int (1, 3) imgInt 0 2 = .fin 60000 ∧
    lee_filter2 (1, 3) (asFloat32 imgInt) 0 2 = .fin 50000 ∧
    lee_filter2_int (1, 3) imgInt 0 2 ≠
      lee_filter2 (1, 3) (asFloat32 imgInt) 0 2 := by
  refine ⟨by decide, lee_filter_of_int_eval, lee_filter2_float_eval, ?_⟩
  rw [lee_filter2_int_eval, lee_filter2_float_eval]
  simp only [ne_eq, Fl.fin.injEq]
  norm_num

/-! ## C2: `enhanced_lee_filter` produces NaN where the local mean is 0 -/

/-- C2: on the finite, non-negative all-zero 1×1 array with
`looks = 1 > 0` (any window), the local mean `Im` and local standard
deviation `S` are both `0`, so `Ci = S / Im = 0/0 = nan`; the `nan`
then survives the masking (`nan * 0 = nan` inside `R2`) and the output
pixel is `nan` — the division by a zero mean is not guarded and the
pixel is not treated as homogeneous. -/
theorem enhanced_lee_nan_on_zero_mean :
    enhanced_lee_filter 1 1 3 ((fun _ _ => 0) : Mat 1 1 ℝ) 0 0 = .nan := by
  have hconst : ∀ c : ℝ,
      uniform_filter (3, 3) ((fun _ _ => c) : Mat 1 1 ℝ) 0 0 = c :=
    fun c => uniform_filter_const 3 3 (by norm_num) (by norm_num) c 0 0
  simp only [enhanced_lee_filter, window_stdev]
  norm_num [hconst, Real.sqrt_zero, Fl.div, Fl.lt, Fl.le, Fl.ge, Fl.ofBool,
    Fl.mul, Fl.add, Fl.sub, Fl.exp]

/-! ## C1: the three regions of `enhanced_lee_filter` overlap -/

/-- The 1×2 array `[0, 1]`.  With `looks = 2` and window 3 the pixel
`(0,1)` has `Im = 2/3`, `S = sqrt 2 / 3` and `Ci = sqrt 2 / 2`, which
equals `Cu = sqrt (1/2)` exactly: a homogeneous pixel (`Ci ≤ Cu`). -/
def img01 : Mat 1 2 ℝ := fun _ j => if (j : ℕ) = 0 then 0 else 1

theorem enhanced_lee_region_overlap :
    enhanced_lee_filter 2 1 3 img01 0 1 = .fin (5 / 3) ∧
    Fl.le (Fl.div
        (.fin (window_stdev (3, 3) img01 (uniform_filter (3, 3) img01) 0 1))
        (.fin (uniform_filter (3, 3) img01 0 1)))
      (.fin (Real.sqrt (1 / 2))) = true ∧
    uniform_filter (3, 3) img01 0 1 = 2 / 3 ∧
    (5 / 3 : ℝ) ≠ 2 / 3 := by
  have h2pos : (0 : ℝ) < Real.sqrt 2 := Real.sqrt_pos.2 (by norm_num)
  have hsqrt2 : Real.sqrt 2 * Real.sqrt 2 = 2 :=
    Real.mul_self_sqrt (by norm_num)
  have hrow : ∀ (i : Fin 1) (z : ℤ), reflIx i z = i :=
    fun i z => Subsingleton.elim _ _
  have hb1 : reflIx (1 : Fin 2) 0 = 0 := by decide
  have hb2 : reflIx (1 : Fin 2) 1 = 1 := by decide
  have hb3 : reflIx (1 : Fin 2) 2 = 1 := by decide
  have hmean : uniform_filter (3, 3) img01 0 1 = 2 / 3 := by
    norm_num [uniform_filter, passCols, passRows, boxMean, hrow, hb1, hb2,
      hb3, Finset.sum_range_succ, img01]
  have hsq : uniform_filter (3, 3) (fun i j => img01 i j ^ 2) 0 1 = 2 / 3 := by
    norm_num [uniform_filter, passCols, passRows, boxMean, hrow, hb1, hb2,
      hb3, Finset.sum_range_succ, img01]
  have h9 : Real.sqrt 9 = 3 := by
    rw [show (9 : ℝ) = 3 ^ 2 by norm_num, Real.sqrt_sq (by norm_num : (0:ℝ) ≤ 3)]
  have hS : window_stdev (3, 3) img01 (uniform_filter (3, 3) img01) 0 1 =
      Real.sqrt 2 / 3 := by
    simp only [window_stdev]
    rw [hsq, hmean, show (2 / 3 - (2 / 3 : ℝ) ^ 2) = 2 / 9 by norm_num,
      Real.sqrt_div (by norm_num : (0:ℝ) ≤ 2) 9, h9]
  have hCu : Real.sqrt (1 / 2) = Real.sqrt 2 / 2 := by
    rw [show (1 / 2 : ℝ) = 2⁻¹ by norm_num, Real.sqrt_inv]
    rw [inv_eq_one_div, div_eq_div_iff (ne_of_gt h2pos) (by norm_num : (2:ℝ) ≠ 0)]
    linarith [hsqrt2]
  have hCi : Real.sqrt 2 / 3 / (2 / 3) = Real.sqrt 2 / 2 := by
    field_simp
  have hCmax : Real.sqrt (1 + 2 / 2) = Real.sqrt 2 := by norm_num
  have hhalf : Real.sqrt 2 / 2 < Real.sqrt 2 := by linarith
  have hden0 : Real.sqrt 2 - Real.sqrt 2 / 2 ≠ 0 := by
    have : Real.sqrt 2 - Real.sqrt 2 / 2 = Real.sqrt 2 / 2 := by ring
    rw [this]
    positivity
  refine ⟨?_, ?_, hmean, by norm_num⟩
  · simp only [enhanced_lee_filter, hS, hmean, hCu, hCmax]
    norm_num [Fl.div, Fl.lt, Fl.le, Fl.ge, Fl.ofBool, Fl.mul, Fl.add,
      Fl.sub, Fl.exp, hCi, hhalf, hden0, lt_irrefl, le_refl, Real.exp_zero,
      img01]
  · simp only [hS, hmean, hCu]
    norm_num [Fl.div, Fl.le, hCi, le_refl]
